import Mathlib

/-!
Verification development for the configuration-language front end in
`config_parser.py` (class `Lexer` and class `Parser`).

Modelling conventions:
* Source text is a `List Char`; the lexer's cursor is represented by the
  remaining character list.  Source byte offsets carried by tokens are
  diagnostic-only (no claim depends on them) and are omitted.
* Python's `str.isspace` / `str.isdigit` / `str.isalnum` are modelled by
  their ASCII fragments (the inputs of interest are ASCII; the explicit
  character ranges in `read_identifier` are ASCII in the source itself).
* Errors are `Except.error msg` where `msg` is the message string passed to
  `Lexer.error` / `Parser.error`; the Python wrappers prepend position and
  context information, so any phrase contained in `msg` is contained in the
  full rendered error as well.
* Number tokens: a literal without `.`/`e`/`E` is stored as the exact
  integer (`int(num_str)`); otherwise the float literal text itself is
  stored (`float(num_str)`), since no claim depends on float arithmetic.
-/

set_option maxRecDepth 2000
set_option maxHeartbeats 1000000

namespace ConfigParser

/-! ## Character classes (ASCII fragments of the Python predicates) -/

/-- ASCII fragment of Python `str.isspace`. -/
def pyIsSpace (c : Char) : Bool :=
  c = ' ' || c = '\t' || c = '\n' || c = '\r' || c = '\x0b' || c = '\x0c'

/-- First character of an identifier, from `Lexer.read_identifier`:
underscore or an ASCII letter. -/
def isIdentStart (c : Char) : Bool :=
  c = '_' || ('A' ≤ c && c ≤ 'Z') || ('a' ≤ c && c ≤ 'z')

/-- Continuation character of an identifier, from `Lexer.read_identifier`:
underscore, ASCII letter or ASCII digit. -/
def isIdentCont (c : Char) : Bool :=
  c = '_' || ('a' ≤ c && c ≤ 'z') || ('A' ≤ c && c ≤ 'Z') || ('0' ≤ c && c ≤ '9')

/-- ASCII fragment of Python `str.isalnum`, used by the keyword
word-boundary checks in `Lexer.tokenize`. -/
def pyIsAlnum (c : Char) : Bool :=
  c.isAlphanum

/-! ## Tokens -/

/-- Payload of a NUMBER token: `Lexer.tokenize` stores `int(num_str)` for
literals without `.`/`e`/`E` and `float(num_str)` otherwise.  The float
case keeps the literal text (no claim depends on float arithmetic). -/
inductive NumLit where
  | intV : Int → NumLit
  | floatV : String → NumLit
deriving DecidableEq, Repr

/-- Token kinds of `TokenType`, with their decoded payloads. -/
inductive Tok where
  | number : NumLit → Tok
  | string : String → Tok
  | ident : String → Tok
  | arrayKw : Tok
  | dictStart : Tok
  | dictEnd : Tok
  | lparen : Tok
  | rparen : Tok
  | arrow : Tok
  | comma : Tok
  | letKw : Tok
  | equals : Tok
  | constantRef : String → Tok
  | eof : Tok
deriving DecidableEq, Repr

/-- Name of a token type, as used in `Parser.error` messages
(`TokenType.<name>.name`). -/
def tokTypeName : Tok → String
  | .number _ => "NUMBER"
  | .string _ => "STRING"
  | .ident _ => "IDENTIFIER"
  | .arrayKw => "ARRAY"
  | .dictStart => "DICT_START"
  | .dictEnd => "DICT_END"
  | .lparen => "LPAREN"
  | .rparen => "RPAREN"
  | .arrow => "ARROW"
  | .comma => "COMMA"
  | .letKw => "LET"
  | .equals => "EQUALS"
  | .constantRef _ => "CONSTANT_REF"
  | .eof => "EOF"

/-! ## Lexer -/

/-- Skip whitespace, as `Lexer.skip_whitespace`. -/
def skipWs : List Char → List Char
  | [] => []
  | c :: rest => if pyIsSpace c then skipWs rest else c :: rest

/-- Consume a maximal run of ASCII digits (the `while ... isdigit`
loops of `Lexer.read_number`). -/
def takeDigits : List Char → List Char × List Char
  | [] => ([], [])
  | c :: rest =>
    if c.isDigit then
      let p := takeDigits rest
      (c :: p.1, p.2)
    else ([], c :: rest)

/-- Consume a maximal run of identifier-continuation characters. -/
def takeIdentCont : List Char → List Char × List Char
  | [] => ([], [])
  | c :: rest =>
    if isIdentCont c then
      let p := takeIdentCont rest
      (c :: p.1, p.2)
    else ([], c :: rest)

/-- Exponent part of `Lexer.read_number`: an optional `e`/`E`, optional
sign, then at least one digit.  Returns the consumed characters and the
rest.  When the head is not `e`/`E` nothing is consumed. -/
def readExp (s : List Char) : Except String (List Char × List Char) :=
  match s with
  | [] => .ok ([], [])
  | c :: s1 =>
    if c = 'e' || c = 'E' then
      let p : List Char × List Char :=
        match s1 with
        | c2 :: r => if c2 = '-' || c2 = '+' then ([c2], r) else ([], s1)
        | [] => ([], s1)
      match takeDigits p.2 with
      | ([], _) => .error "Invalid exponent in number: expected digits after 'e'"
      | (ds, s3) => .ok (c :: (p.1 ++ ds), s3)
    else .ok ([], c :: s1)

/-- Model of `Lexer.read_number`.  Returns the consumed literal text and
the remaining characters, or the error message passed to `Lexer.error`. -/
def readNumber (s : List Char) : Except String (List Char × List Char) :=
  -- optional minus sign
  let sp : List Char × List Char :=
    match s with
    | c0 :: r => if c0 = '-' then (['-'], r) else ([], s)
    | [] => ([], s)
  -- does the literal (after the sign) start with a dot?
  let startsWithDot : Bool := sp.2.head? = some '.'
  -- integer part
  let ip := takeDigits sp.2
  if ip.2.head? = some '.' then
    -- fractional part: the dot is consumed unconditionally
    let s3 := ip.2.tail
    let fp := takeDigits s3
    if fp.1.isEmpty && startsWithDot && ip.1.isEmpty then
      .error "Invalid number format: expected digits after decimal point"
    else if ip.1.isEmpty && fp.1.isEmpty then
      .error "Invalid number format: expected at least one digit"
    else
      match readExp fp.2 with
      | .error e => .error e
      | .ok (ed, s5) => .ok (sp.1 ++ ip.1 ++ '.' :: fp.1 ++ ed, s5)
  else
    if ip.1.isEmpty then
      .error "Invalid number format: expected at least one digit"
    else
      match readExp ip.2 with
      | .error e => .error e
      | .ok (ed, s3) => .ok (sp.1 ++ ip.1 ++ ed, s3)

/-- Body of `Lexer.read_string`, after the opening quote has been
consumed: decodes escapes until the closing quote; running out of input
is the "Unclosed string" error.  (When the input ends right after a
backslash the source appends the backslash and `None` to its buffer and
then leaves the loop, again reaching `error("Unclosed string")`.) -/
def readStringBody : List Char → Except String (List Char × List Char)
  | [] => .error "Unclosed string"
  | c :: rest =>
    if c = '"' then .ok ([], rest)
    else if c = '\\' then
      match rest with
      | [] => .error "Unclosed string"
      | d :: rest2 =>
        let dec : List Char :=
          if d = 'n' then ['\n']
          else if d = 't' then ['\t']
          else if d = '\\' then ['\\']
          else if d = '"' then ['"']
          else ['\\', d]
        match readStringBody rest2 with
        | .error e => .error e
        | .ok (tl, r) => .ok (dec ++ tl, r)
    else
      match readStringBody rest with
      | .error e => .error e
      | .ok (tl, r) => .ok (c :: tl, r)

/-- Model of `Lexer.read_identifier`. -/
def readIdent (s : List Char) : Except String (List Char × List Char) :=
  match s with
  | [] => .error "Invalid identifier start: None"
  | c :: rest =>
    if isIdentStart c then
      let p := takeIdentCont rest
      .ok (c :: p.1, p.2)
    else .error ("Invalid identifier start: " ++ c.toString)

/-- Scan up to the closing brace of a `#{...}` constant reference
(`None` models falling off the end of the input). -/
def scanToRBrace : List Char → Option (List Char × List Char)
  | [] => none
  | c :: rest =>
    if c = '}' then some ([], rest)
    else
      match scanToRBrace rest with
      | none => none
      | some (nm, r) => some (c :: nm, r)

/-- Base-10 value of a digit run, as computed by Python `int`. -/
def digitsVal (ds : List Char) : Nat :=
  ds.foldl (fun n c => 10 * n + (c.toNat - 48)) 0

/-- Python `int(num_str)` on the strings `read_number` can produce for the
integer classification: an optional minus sign followed by digits. -/
def intOfLit (lit : List Char) : Int :=
  match lit with
  | c :: ds => if c = '-' then -(digitsVal ds : Int) else (digitsVal (c :: ds) : Int)
  | [] => (digitsVal [] : Int)

/-- One dispatch step of `Lexer.tokenize`: skip whitespace, then branch on
the current character exactly in the source's priority order.  Returns
`none` when the input is exhausted, otherwise the next token and the
remaining characters. -/
def nextTok (s0 : List Char) : Except String (Option (Tok × List Char)) :=
  match skipWs s0 with
  | [] => .ok none
  | c :: rest =>
    let s := c :: rest
    if c = '-' || c.isDigit || c = '.' then
      match readNumber s with
      | .error e => .error e
      | .ok (lit, r) =>
        -- classification in tokenize; the ValueError handler is
        -- unreachable for strings read_number returns
        if lit.contains 'e' || lit.contains 'E' then
          .ok (some (.number (.floatV ⟨lit⟩), r))
        else if lit.contains '.' then
          .ok (some (.number (.floatV ⟨lit⟩), r))
        else
          .ok (some (.number (.intV (intOfLit lit)), r))
    else if c = '"' then
      match readStringBody rest with
      | .error e => .error e
      | .ok (cs, r) => .ok (some (.string ⟨cs⟩, r))
    else if c = '#' && rest.head? = some '{' then
      match scanToRBrace rest.tail with
      | none => .error "Unclosed constant reference"
      | some (nm, r) => .ok (some (.constantRef ⟨nm⟩, r))
    else if c = '[' then .ok (some (.dictStart, rest))
    else if c = ']' then .ok (some (.dictEnd, rest))
    else if c = '(' then .ok (some (.lparen, rest))
    else if c = ')' then .ok (some (.rparen, rest))
    else if c = ',' then .ok (some (.comma, rest))
    else if c = '=' then
      if rest.head? = some '>' then .ok (some (.arrow, rest.tail))
      else .ok (some (.equals, rest))
    else if c = '>' then .ok (some (.arrow, rest))
    else if isIdentStart c then
      if c = 'a' && s.take 5 = ['a', 'r', 'r', 'a', 'y'] then
        match s.drop 5 with
        | [] => .ok (some (.arrayKw, []))
        | b :: r5 =>
          if pyIsAlnum b || b = '_' then
            match readIdent s with
            | .error e => .error e
            | .ok (nm, r) => .ok (some (.ident ⟨nm⟩, r))
          else .ok (some (.arrayKw, b :: r5))
      else if c = 'l' && s.take 3 = ['l', 'e', 't'] then
        match s.drop 3 with
        | [] => .ok (some (.letKw, []))
        | b :: r3 =>
          if pyIsAlnum b || b = '_' then
            match readIdent s with
            | .error e => .error e
            | .ok (nm, r) => .ok (some (.ident ⟨nm⟩, r))
          else .ok (some (.letKw, b :: r3))
      else
        match readIdent s with
        | .error e => .error e
        | .ok (nm, r) => .ok (some (.ident ⟨nm⟩, r))
    else .error ("Unexpected character: " ++ c.toString)

/-- The tokenize loop.  Each successful `nextTok` step consumes at least
one character, so fuel `length + 1` never runs out; the fuel argument
only makes the recursion structural. -/
def tokenizeAux : Nat → List Char → Except String (List Tok)
  | 0, _ => .error "out of fuel"
  | f + 1, s =>
    match nextTok s with
    | .error e => .error e
    | .ok none => .ok [Tok.eof]
    | .ok (some (t, r)) =>
      match tokenizeAux f r with
      | .error e => .error e
      | .ok ts => .ok (t :: ts)

/-- Model of `Lexer.tokenize`: the token list always ends with `EOF`. -/
def tokenize (text : String) : Except String (List Tok) :=
  tokenizeAux (text.data.length + 1) text.data

/-! ## Values and the constant table -/

/-- Result values of the parser (the dynamically-typed tree the Python
code builds out of ints/floats, strings, booleans, lists and dicts). -/
inductive Value where
  | num : NumLit → Value
  | str : String → Value
  | boolV : Bool → Value
  | arr : List Value → Value
  | dict : List (String × Value) → Value

/-- Python dict assignment `d[k] = v`: overwrite in place when the key is
present (insertion order of the first write is kept), append otherwise.
Used both for dict literals and for the constant table. -/
def pyDictSet (d : List (String × Value)) (k : String) (v : Value) :
    List (String × Value) :=
  if (d.map Prod.fst).contains k then
    d.map (fun p => if p.1 = k then (k, v) else p)
  else d ++ [(k, v)]

/-- Lookup in a Python dict modelled as an association list. -/
def lookupC : List (String × Value) → String → Option Value
  | [], _ => none
  | (k, v) :: rest, n => if k = n then some v else lookupC rest n

/-- The constant table of `Parser`. -/
abbrev Consts := List (String × Value)

/-! ## Parser

The parser state is the remaining token list (the source's integer
cursor into a fixed token list).  Every successful parse consumes at
least one token; the results carry that bound so that the mutual
recursion is well founded.  `Parser.peek` clamps the cursor to the last
token of the list; for `EOF`-terminated token lists (the only lists
`tokenize` produces) the clamp is unreachable because no production ever
consumes the final `EOF`, so the `[]` cases below are dead code there. -/

mutual

/-- Model of `Parser.parse_value`. -/
def parseValue (c : Consts) :
    (rem : List Tok) → Except String (Value × { r : List Tok // r.length < rem.length })
  | .number n :: rest => .ok (.num n, ⟨rest, by simp⟩)
  | .string s :: rest => .ok (.str s, ⟨rest, by simp⟩)
  | .arrayKw :: rest =>
    match parseArray c (.arrayKw :: rest) with
    | .error e => .error e
    | .ok (vs, r) => .ok (.arr vs, r)
  | .dictStart :: rest =>
    match parseDict c (.dictStart :: rest) with
    | .error e => .error e
    | .ok (d, r) => .ok (.dict d, r)
  | .constantRef n :: rest =>
    match lookupC c n with
    | none => .error ("Undefined constant: " ++ n)
    | some v => .ok (v, ⟨rest, by simp⟩)
  | .ident s :: rest =>
    if s = "true" then .ok (.boolV true, ⟨rest, by simp⟩)
    else if s = "false" then .ok (.boolV false, ⟨rest, by simp⟩)
    else .error ("Unexpected identifier in value: " ++ s)
  | t :: _ => .error ("Unexpected token in value: " ++ tokTypeName t)
  | [] => .error "Unexpected token in value: EOF"
termination_by rem => (rem.length, 1)

/-- Model of `Parser.parse_array` (which itself expects the `ARRAY` and
`LPAREN` tokens). -/
def parseArray (c : Consts) :
    (rem : List Tok) → Except String (List Value × { r : List Tok // r.length < rem.length })
  | .arrayKw :: .lparen :: .rparen :: rest =>
    .ok ([], ⟨rest, by simp only [List.length_cons]; omega⟩)
  | .arrayKw :: .lparen :: rest =>
    match arrayItems c [] rest with
    | .error e => .error e
    | .ok (vs, ⟨r, h⟩) => .ok (vs, ⟨r, by simp only [List.length_cons]; omega⟩)
  | .arrayKw :: t :: _ => .error ("Expected LPAREN, got " ++ tokTypeName t)
  | [.arrayKw] => .error "Expected LPAREN, got EOF"
  | t :: _ => .error ("Expected ARRAY, got " ++ tokTypeName t)
  | [] => .error "Expected ARRAY, got EOF"
termination_by rem => (rem.length, 0)

/-- The value/separator loop of `Parser.parse_array`. -/
def arrayItems (c : Consts) (acc : List Value) (rem : List Tok) :
    Except String (List Value × { r : List Tok // r.length < rem.length }) :=
  match parseValue c rem with
  | .error e => .error e
  | .ok (v, ⟨r1, h1⟩) =>
    match r1, h1 with
    | .comma :: rest2, h1 =>
      (match arrayItems c (acc ++ [v]) rest2 with
       | .error e => .error e
       | .ok (vs, ⟨r2, h2⟩) => .ok (vs, ⟨r2, by simp only [List.length_cons] at h1 ⊢; omega⟩))
    | .rparen :: rest2, h1 => .ok (acc ++ [v], ⟨rest2, by simp only [List.length_cons] at h1 ⊢; omega⟩)
    | _, _ => .error "Expected comma or closing parenthesis"
termination_by (rem.length, 2)
decreasing_by
  all_goals simp_wf
  all_goals first
    | (apply Prod.Lex.right; omega)
    | (apply Prod.Lex.left; (try simp only [List.length_cons] at *); omega)

/-- Model of `Parser.parse_dict` (which itself expects `DICT_START`). -/
def parseDict (c : Consts) :
    (rem : List Tok) → Except String (List (String × Value) × { r : List Tok // r.length < rem.length })
  | .dictStart :: rest =>
    match dictEntries c [] rest with
    | .error e => .error e
    | .ok (d, ⟨r, h⟩) => .ok (d, ⟨r, by simp only [List.length_cons]; omega⟩)
  | t :: _ => .error ("Expected DICT_START, got " ++ tokTypeName t)
  | [] => .error "Expected DICT_START, got EOF"
termination_by rem => (rem.length, 0)

/-- The entry loop of `Parser.parse_dict`.  After an entry, the source's
`continue` on `DICT_END` re-enters the loop head, which immediately
consumes the `DICT_END` and breaks; that path is modelled directly. -/
def dictEntries (c : Consts) (acc : List (String × Value)) (rem : List Tok) :
    Except String (List (String × Value) × { r : List Tok // r.length < rem.length }) :=
  match rem with
  | .dictEnd :: rest => .ok (acc, ⟨rest, by simp⟩)
  | .ident k :: .arrow :: rest =>
    (match parseValue c rest with
     | .error e => .error e
     | .ok (v, ⟨r1, h1⟩) =>
       match r1, h1 with
       | .comma :: rest2, h1 =>
         (match dictEntries c (pyDictSet acc k v) rest2 with
          | .error e => .error e
          | .ok (d, ⟨r2, h2⟩) => .ok (d, ⟨r2, by simp only [List.length_cons] at h1 ⊢; omega⟩))
       | .dictEnd :: rest2, h1 => .ok (pyDictSet acc k v, ⟨rest2, by simp only [List.length_cons] at h1 ⊢; omega⟩)
       | _, _ => .error "Expected comma or closing bracket")
  | .ident k :: t :: _ => .error ("Expected ARROW, got " ++ tokTypeName t)
  | [.ident k] => .error "Expected ARROW, got EOF"
  | t :: _ => .error ("Expected IDENTIFIER, got " ++ tokTypeName t)
  | [] => .error "Expected IDENTIFIER, got EOF"
termination_by (rem.length, 2)
decreasing_by
  all_goals simp_wf
  all_goals first
    | (apply Prod.Lex.right; omega)
    | (apply Prod.Lex.left; (try simp only [List.length_cons] at *); omega)

end

/-- Model of `Parser.parse_let`: binds the parsed value into the constant
table immediately and returns the updated table. -/
def parseLet (c : Consts) :
    (rem : List Tok) → Except String (Consts × { r : List Tok // r.length < rem.length })
  | .letKw :: .ident n :: .equals :: rest =>
    (match parseValue c rest with
     | .error e => .error e
     | .ok (v, ⟨r, h⟩) => .ok (pyDictSet c n v, ⟨r, by simp only [List.length_cons]; omega⟩))
  | .letKw :: .ident n :: t :: _ => .error ("Expected EQUALS, got " ++ tokTypeName t)
  | [.letKw, .ident n] => .error "Expected EQUALS, got EOF"
  | .letKw :: t :: _ => .error ("Expected IDENTIFIER, got " ++ tokTypeName t)
  | [.letKw] => .error "Expected IDENTIFIER, got EOF"
  | t :: _ => .error ("Expected LET, got " ++ tokTypeName t)
  | [] => .error "Expected LET, got EOF"

/-- The top-level loop of `Parser.parse`: `acc` is the `result` variable
(`none` while no root value has been seen).  A missing root yields the
empty dict. -/
def parseTop (c : Consts) (acc : Option Value) :
    (rem : List Tok) → Except String Value
  | [] => .ok (acc.getD (.dict []))
  | .eof :: _ => .ok (acc.getD (.dict []))
  | .letKw :: rest =>
    (match parseLet c (.letKw :: rest) with
     | .error e => .error e
     | .ok (c2, ⟨r, _h⟩) => parseTop c2 acc r)
  | t :: rest =>
    match acc with
    | some _ => .error "Multiple root values"
    | none =>
      match parseValue c (t :: rest) with
      | .error e => .error e
      | .ok (v, ⟨r, _h⟩) => parseTop c (some v) r
termination_by rem => rem.length
decreasing_by
  all_goals simp_wf
  all_goals simp only [List.length_cons] at *
  all_goals omega

/-- Model of `Parser(tokens).parse()` with a fresh constant table. -/
def parseTokens (ts : List Tok) : Except String Value :=
  parseTop [] none ts

/-- The full pipeline used by `main.py`: tokenize, then parse. -/
def parseText (text : String) : Except String Value :=
  match tokenize text with
  | .error e => .error e
  | .ok ts => parseTokens ts

/-! ## Plain-pair wrappers (the subtype component only carries the
termination bound) -/

/-- `parseValue` with the consumption bound erased. -/
def parseValueR (c : Consts) (rem : List Tok) : Except String (Value × List Tok) :=
  (parseValue c rem).map (fun p => (p.1, p.2.val))

/-- `parseArray` with the consumption bound erased. -/
def parseArrayR (c : Consts) (rem : List Tok) : Except String (List Value × List Tok) :=
  (parseArray c rem).map (fun p => (p.1, p.2.val))

/-- `arrayItems` with the consumption bound erased. -/
def arrayItemsR (c : Consts) (acc : List Value) (rem : List Tok) :
    Except String (List Value × List Tok) :=
  (arrayItems c acc rem).map (fun p => (p.1, p.2.val))

/-- `parseDict` with the consumption bound erased. -/
def parseDictR (c : Consts) (rem : List Tok) :
    Except String (List (String × Value) × List Tok) :=
  (parseDict c rem).map (fun p => (p.1, p.2.val))

/-- `dictEntries` with the consumption bound erased. -/
def dictEntriesR (c : Consts) (acc : List (String × Value)) (rem : List Tok) :
    Except String (List (String × Value) × List Tok) :=
  (dictEntries c acc rem).map (fun p => (p.1, p.2.val))

/-- `parseLet` with the consumption bound erased. -/
def parseLetR (c : Consts) (rem : List Tok) : Except String (Consts × List Tok) :=
  (parseLet c rem).map (fun p => (p.1, p.2.val))

/-! ## Specification-level notions used by the claims -/

/-- The phrase `pat` occurs inside the message `msg`.  The Python error
wrappers only prepend/append context around the message, so a phrase
contained in the message is contained in the rendered error. -/
def phraseIn (pat msg : String) : Prop :=
  pat.data <:+: msg.data

instance (pat msg : String) : Decidable (phraseIn pat msg) :=
  inferInstanceAs (Decidable (pat.data <:+: msg.data))

/-- A value segment: a token run that `parse_value` accepts under the
constant table `c`, producing `v` and consuming exactly the run,
whatever follows it.  Any token run of a well-formed value literal has
this property, since `parse_value` never looks past the tokens of the
value it returns. -/
def ValSeg (c : Consts) (V : List Tok) (v : Value) : Prop :=
  ∀ r : List Tok, parseValueR c (V ++ r) = .ok (v, r)

/-- A run of `let` declarations, as accepted by the top-level loop of
`Parser.parse`: each one binds its value into the constant table, which
is threaded left to right (`c` before, `c2` after). -/
inductive LetChain : Consts → List Tok → Consts → Prop
  | nil (c : Consts) : LetChain c [] c
  | step {c c2 : Consts} {n : String} {V : List Tok} {v : Value} {ts : List Tok} :
      ValSeg c V v →
      LetChain (pyDictSet c n v) ts c2 →
      LetChain c (Tok.letKw :: Tok.ident n :: Tok.equals :: (V ++ ts)) c2

/-- Comma-separated value segments terminated by a closing parenthesis:
the shape `Parser.parse_array`'s loop accepts after a non-empty start,
together with the values it produces and what remains after the
closing parenthesis. -/
inductive ArrChain (c : Consts) : List Tok → List Value → List Tok → Prop
  | last {V : List Tok} {v : Value} {rest : List Tok} :
      ValSeg c V v → ArrChain c (V ++ Tok.rparen :: rest) [v] rest
  | more {V : List Tok} {v : Value} {ts : List Tok} {vs : List Value} {rest : List Tok} :
      ValSeg c V v → ArrChain c ts vs rest →
      ArrChain c (V ++ Tok.comma :: ts) (v :: vs) rest

/-- Comma-separated dict entries (`IDENTIFIER ARROW value`), without any
trailing separator and without the closing bracket. -/
inductive EntrySeq (c : Consts) : List Tok → List (String × Value) → Prop
  | single {k : String} {V : List Tok} {v : Value} :
      ValSeg c V v → EntrySeq c (Tok.ident k :: Tok.arrow :: V) [(k, v)]
  | cons {k : String} {V : List Tok} {v : Value} {ts : List Tok} {es : List (String × Value)} :
      ValSeg c V v → EntrySeq c ts es →
      EntrySeq c (Tok.ident k :: Tok.arrow :: (V ++ Tok.comma :: ts)) ((k, v) :: es)

/-- Apply dict entries in encounter order (`result[name] = value`). -/
def applyEntries (d : List (String × Value)) (es : List (String × Value)) :
    List (String × Value) :=
  es.foldl (fun d p => pyDictSet d p.1 p.2) d

/-- Decimal digit denoted by a character. -/
def charDigit (c : Char) : Nat := c.toNat - 48

/-- Specification-side denotation of an integer literal: the base-10
value of the digit string (via `Nat.ofDigits`), negated when the literal
carries a minus sign. -/
def denotedInt (lit : List Char) : Int :=
  match lit with
  | c :: ds =>
    if c = '-' then -(Nat.ofDigits 10 ((ds.map charDigit).reverse) : Int)
    else (Nat.ofDigits 10 (((c :: ds).map charDigit).reverse) : Int)
  | [] => 0

/-! ## General lemmas about the parser -/

theorem mapSub_ok {α : Type} {P : List Tok → Prop} {x : Except String (α × Subtype P)}
    {v : α} {r : List Tok} :
    x.map (fun p => (p.1, p.2.val)) = .ok (v, r) ↔ ∃ h : P r, x = .ok (v, ⟨r, h⟩) := by
  cases x with
  | error e => simp [Except.map]
  | ok p =>
    obtain ⟨a, rr, hr⟩ := p
    simp only [Except.map, Except.ok.injEq, Prod.mk.injEq, Subtype.mk.injEq]
    constructor
    · rintro ⟨h1, h2⟩
      subst h2
      exact ⟨hr, h1, rfl⟩
    · rintro ⟨h, h2⟩
      exact h2

theorem parseValueR_number (c : Consts) (n : NumLit) (r : List Tok) :
    parseValueR c (Tok.number n :: r) = .ok (.num n, r) := by
  simp [parseValueR, parseValue, Except.map]

theorem parseValueR_string (c : Consts) (s : String) (r : List Tok) :
    parseValueR c (Tok.string s :: r) = .ok (.str s, r) := by
  simp [parseValueR, parseValue, Except.map]

theorem parseValueR_true (c : Consts) (r : List Tok) :
    parseValueR c (Tok.ident "true" :: r) = .ok (.boolV true, r) := by
  simp [parseValueR, parseValue, Except.map]

theorem parseValueR_false (c : Consts) (r : List Tok) :
    parseValueR c (Tok.ident "false" :: r) = .ok (.boolV false, r) := by
  simp [parseValueR, parseValue, Except.map]

theorem parseValueR_ident_other (c : Consts) {s : String} (h1 : s ≠ "true")
    (h2 : s ≠ "false") (r : List Tok) :
    parseValueR c (Tok.ident s :: r) = .error ("Unexpected identifier in value: " ++ s) := by
  simp [parseValueR, parseValue, Except.map, h1, h2]

theorem parseValueR_cref_none (c : Consts) {n : String} (h : lookupC c n = none)
    (r : List Tok) :
    parseValueR c (Tok.constantRef n :: r) = .error ("Undefined constant: " ++ n) := by
  simp [parseValueR, parseValue, Except.map, h]

theorem parseValueR_cref_some (c : Consts) {n : String} {v : Value}
    (h : lookupC c n = some v) (r : List Tok) :
    parseValueR c (Tok.constantRef n :: r) = .ok (v, r) := by
  simp [parseValueR, parseValue, Except.map, h]

theorem parseValueR_nil (c : Consts) :
    parseValueR c [] = .error "Unexpected token in value: EOF" := by
  simp [parseValueR, parseValue, Except.map]

/-- The token kinds `parse_value` rejects outright. -/
theorem parseValueR_bad (c : Consts) (t : Tok) (r : List Tok)
    (h : t = Tok.dictEnd ∨ t = Tok.lparen ∨ t = Tok.rparen ∨ t = Tok.arrow ∨
      t = Tok.comma ∨ t = Tok.letKw ∨ t = Tok.equals ∨ t = Tok.eof) :
    parseValueR c (t :: r) = .error ("Unexpected token in value: " ++ tokTypeName t) := by
  rcases h with h | h | h | h | h | h | h | h <;>
    (subst h; simp [parseValueR, parseValue, Except.map])

/-- A value segment is non-empty and starts with a token `parse_value`
does not reject outright. -/
theorem ValSeg_shape {c : Consts} {V : List Tok} {v : Value} (h : ValSeg c V v) :
    ∃ t V2, V = t :: V2 ∧
      t ≠ Tok.comma ∧ t ≠ Tok.rparen ∧ t ≠ Tok.dictEnd ∧ t ≠ Tok.lparen ∧
      t ≠ Tok.arrow ∧ t ≠ Tok.letKw ∧ t ≠ Tok.equals ∧ t ≠ Tok.eof := by
  have h0 := h []
  cases V with
  | nil => rw [List.nil_append, parseValueR_nil] at h0; exact absurd h0 (by simp)
  | cons t V2 =>
    refine ⟨t, V2, rfl, ?_, ?_, ?_, ?_, ?_, ?_, ?_, ?_⟩ <;>
      (rintro rfl;
       rw [List.cons_append, parseValueR_bad _ _ _ (by simp)] at h0;
       exact absurd h0 (by simp))

theorem parseTop_nil (c : Consts) (acc : Option Value) :
    parseTop c acc [] = .ok (acc.getD (.dict [])) := by
  simp [parseTop]

theorem parseTop_eof (c : Consts) (acc : Option Value) (r : List Tok) :
    parseTop c acc (Tok.eof :: r) = .ok (acc.getD (.dict [])) := by
  simp [parseTop]

/-- A `let` declaration at the top level binds its value and continues
with the extended constant table. -/
theorem parseTop_letStep {c : Consts} {V : List Tok} {v : Value} (acc : Option Value)
    (n : String) (rest : List Tok) (hV : ValSeg c V v) :
    parseTop c acc (Tok.letKw :: Tok.ident n :: Tok.equals :: (V ++ rest)) =
      parseTop (pyDictSet c n v) acc rest := by
  have h1 := hV rest
  rw [parseValueR] at h1
  obtain ⟨hb, hpv⟩ := mapSub_ok.mp h1
  simp [parseTop, parseLet, hpv]

/-- A value segment in root position, with no root seen yet, becomes the
root and parsing continues. -/
theorem parseTop_rootStep {c : Consts} {V : List Tok} {v : Value} (hV : ValSeg c V v)
    (rest : List Tok) :
    parseTop c none (V ++ rest) = parseTop c (some v) rest := by
  obtain ⟨t, V2, rfl, hc, hrp, hde, hlp, har, hlk, heq, heo⟩ := ValSeg_shape hV
  have h1 := hV rest
  rw [parseValueR] at h1
  obtain ⟨hb, hpv⟩ := mapSub_ok.mp h1
  cases t <;> simp_all [parseTop, parseValue, Except.map, tokTypeName]

/-- A value segment in root position when a root has already been seen is
the "Multiple root values" syntax error. -/
theorem parseTop_moreRoot {c : Consts} {V : List Tok} {v : Value} (hV : ValSeg c V v)
    (v0 : Value) (rest : List Tok) :
    parseTop c (some v0) (V ++ rest) = .error "Multiple root values" := by
  obtain ⟨t, V2, rfl, hc, hrp, hde, hlp, har, hlk, heq, heo⟩ := ValSeg_shape hV
  cases t <;> simp_all [parseTop]

/-- A chain of `let` declarations runs through the top-level loop,
only extending the constant table. -/
theorem parseTop_letChain {c c2 : Consts} {ts : List Tok} (h : LetChain c ts c2) :
    ∀ (acc : Option Value) (rest : List Tok),
      parseTop c acc (ts ++ rest) = parseTop c2 acc rest := by
  induction h with
  | nil c => intro acc rest; rfl
  | step hV hch ih =>
    intro acc rest
    rw [List.cons_append, List.cons_append, List.cons_append, List.append_assoc]
    rw [parseTop_letStep acc _ _ hV]
    exact ih acc rest

/-- Scalar value segments, used to instantiate the chain hypotheses. -/
theorem ValSeg_number (c : Consts) (n : NumLit) : ValSeg c [Tok.number n] (.num n) :=
  fun r => parseValueR_number c n r

theorem ValSeg_string (c : Consts) (s : String) : ValSeg c [Tok.string s] (.str s) :=
  fun r => parseValueR_string c s r

theorem ValSeg_true (c : Consts) : ValSeg c [Tok.ident "true"] (.boolV true) :=
  fun r => parseValueR_true c r

theorem ValSeg_cref {c : Consts} {n : String} {v : Value} (h : lookupC c n = some v) :
    ValSeg c [Tok.constantRef n] v :=
  fun r => parseValueR_cref_some c h r

/-- An `ArrChain` starts with a token `parse_value` accepts, in
particular not with a closing parenthesis. -/
theorem ArrChain_head {c : Consts} {ts : List Tok} {vs : List Value} {rest : List Tok}
    (h : ArrChain c ts vs rest) :
    ∃ t ts2, ts = t :: ts2 ∧ t ≠ Tok.rparen := by
  have hx : ∃ V v junk, ts = V ++ junk ∧ ValSeg c V v := by
    cases h with
    | last hV => exact ⟨_, _, _, rfl, hV⟩
    | more hV hch => exact ⟨_, _, _, rfl, hV⟩
  obtain ⟨V, v, junk, hts, hV⟩ := hx
  obtain ⟨t, V2, hVe, _, hrp, _⟩ := ValSeg_shape hV
  subst hVe
  exact ⟨t, V2 ++ junk, by simp [hts], hrp⟩

theorem mapSub_error {α : Type} {P : List Tok → Prop} {x : Except String (α × Subtype P)}
    {e : String} :
    x.map (fun p => (p.1, p.2.val)) = .error e ↔ x = .error e := by
  cases x <;> simp [Except.map]

/-- Lift an `arrayItems` error through the `ARRAY LPAREN` prefix of
`parse_array` (the loop is entered because the head is not `RPAREN`). -/
theorem parseArrayR_lift_error {c : Consts} {t : Tok} {ts2 : List Tok} {e : String}
    (hrp : t ≠ Tok.rparen)
    (h : arrayItemsR c [] (t :: ts2) = .error e) :
    parseArrayR c (Tok.arrayKw :: Tok.lparen :: t :: ts2) = .error e := by
  rw [arrayItemsR, mapSub_error] at h
  cases t
  case rparen => exact absurd rfl hrp
  all_goals simp [parseArrayR, parseArray, h, Except.map]

/-- Lift an `arrayItems` success through the `ARRAY LPAREN` prefix. -/
theorem parseArrayR_lift_ok {c : Consts} {t : Tok} {ts2 : List Tok} {vs : List Value}
    {rest : List Tok} (hrp : t ≠ Tok.rparen)
    (h : arrayItemsR c [] (t :: ts2) = .ok (vs, rest)) :
    parseArrayR c (Tok.arrayKw :: Tok.lparen :: t :: ts2) = .ok (vs, rest) := by
  rw [arrayItemsR] at h
  obtain ⟨hb, hai⟩ := mapSub_ok.mp h
  cases t
  case rparen => exact absurd rfl hrp
  all_goals simp [parseArrayR, parseArray, hai, Except.map]

/-- The `parse_array` loop on a comma-separated chain of value segments
collects the values in order. -/
theorem arrayItems_chain {c : Consts} {ts : List Tok} {vs : List Value} {rest : List Tok}
    (h : ArrChain c ts vs rest) :
    ∀ acc, arrayItemsR c acc ts = .ok (acc ++ vs, rest) := by
  induction h with
  | @last V v rest1 hV =>
    intro acc
    have h1 := hV (Tok.rparen :: rest1)
    rw [parseValueR] at h1
    obtain ⟨hb, hpv⟩ := mapSub_ok.mp h1
    rw [arrayItemsR, arrayItems, hpv]
    simp [Except.map]
  | @more V v ts1 vs1 rest1 hV hch ih =>
    intro acc
    have h1 := hV (Tok.comma :: ts1)
    rw [parseValueR] at h1
    obtain ⟨hb, hpv⟩ := mapSub_ok.mp h1
    have h2 := ih (acc ++ [v])
    rw [arrayItemsR] at h2
    obtain ⟨hb2, hai⟩ := mapSub_ok.mp h2
    rw [arrayItemsR, arrayItems, hpv]
    simp [hai, Except.map]

/-- `parse_array` on `array(` followed by a non-empty chain. -/
theorem parseArrayR_chain {c : Consts} {ts : List Tok} {vs : List Value} {rest : List Tok}
    (h : ArrChain c ts vs rest) :
    parseArrayR c (Tok.arrayKw :: Tok.lparen :: ts) = .ok (vs, rest) := by
  obtain ⟨t, ts2, hts, hrp⟩ := ArrChain_head h
  have hitems := arrayItems_chain h []
  rw [List.nil_append] at hitems
  subst hts
  exact parseArrayR_lift_ok hrp hitems

/-- `parse_array` on an immediately-closed `array()`. -/
theorem parseArrayR_empty (c : Consts) (rest : List Tok) :
    parseArrayR c (Tok.arrayKw :: Tok.lparen :: Tok.rparen :: rest) = .ok ([], rest) := by
  simp [parseArrayR, parseArray, Except.map]

/-- After a value inside `array(...)`, any token other than a comma or a
closing parenthesis aborts the loop with the separator error. -/
theorem arrayItems_sep_error {c : Consts} {V : List Tok} {v : Value} {t : Tok}
    (hV : ValSeg c V v) (ht1 : t ≠ Tok.comma) (ht2 : t ≠ Tok.rparen)
    (acc : List Value) (rest : List Tok) :
    arrayItemsR c acc (V ++ t :: rest) = .error "Expected comma or closing parenthesis" := by
  have h1 := hV (t :: rest)
  rw [parseValueR] at h1
  obtain ⟨hb, hpv⟩ := mapSub_ok.mp h1
  cases t <;> simp_all [arrayItemsR, arrayItems, Except.map]

/-- The separator error, lifted to `parse_array`. -/
theorem parseArrayR_sep_error {c : Consts} {V : List Tok} {v : Value} {t : Tok}
    (hV : ValSeg c V v) (ht1 : t ≠ Tok.comma) (ht2 : t ≠ Tok.rparen) (rest : List Tok) :
    parseArrayR c (Tok.arrayKw :: Tok.lparen :: (V ++ t :: rest)) =
      .error "Expected comma or closing parenthesis" := by
  have herr := arrayItems_sep_error hV ht1 ht2 [] rest
  obtain ⟨t0, V2, hVe, hc, hrp, hrest⟩ := ValSeg_shape hV
  subst hVe
  exact parseArrayR_lift_error hrp herr

/-- The loop re-entered after a comma fails on an immediate `RPAREN`. -/
theorem arrayItems_rparen (c : Consts) (acc : List Value) (rest : List Tok) :
    arrayItemsR c acc (Tok.rparen :: rest) = .error "Unexpected token in value: RPAREN" := by
  simp [arrayItemsR, arrayItems, parseValue, Except.map, tokTypeName]

/-- A trailing comma before `)` makes the loop re-enter `parse_value` on
the closing parenthesis, which fails. -/
theorem arrayItems_trailing {c : Consts} {V : List Tok} {v : Value} (hV : ValSeg c V v)
    (acc : List Value) (rest : List Tok) :
    arrayItemsR c acc (V ++ Tok.comma :: Tok.rparen :: rest) =
      .error "Unexpected token in value: RPAREN" := by
  have h1 := hV (Tok.comma :: Tok.rparen :: rest)
  rw [parseValueR] at h1
  obtain ⟨hb, hpv⟩ := mapSub_ok.mp h1
  have h2 := arrayItems_rparen c (acc ++ [v]) rest
  rw [arrayItemsR, mapSub_error] at h2
  simp [arrayItemsR, arrayItems, hpv, h2, Except.map]

/-- The trailing-comma failure, lifted to `parse_array`. -/
theorem parseArrayR_trailing_comma {c : Consts} {V : List Tok} {v : Value}
    (hV : ValSeg c V v) (rest : List Tok) :
    parseArrayR c (Tok.arrayKw :: Tok.lparen :: (V ++ Tok.comma :: Tok.rparen :: rest)) =
      .error "Unexpected token in value: RPAREN" := by
  have herr := arrayItems_trailing hV [] rest
  obtain ⟨t0, V2, hVe, hc, hrp, hrest⟩ := ValSeg_shape hV
  subst hVe
  exact parseArrayR_lift_error hrp herr

/-- The `parse_dict` loop consumes an immediate closing bracket. -/
theorem dictEntries_end (c : Consts) (acc : List (String × Value)) (rest : List Tok) :
    dictEntriesR c acc (Tok.dictEnd :: rest) = .ok (acc, rest) := by
  rw [dictEntriesR, dictEntries]
  simp [Except.map]

/-- The `parse_dict` loop on a comma-separated entry sequence with no
trailing comma before the closing bracket. -/
theorem dictEntries_noTrail {c : Consts} {body : List Tok} {es : List (String × Value)}
    (h : EntrySeq c body es) :
    ∀ acc rest, dictEntriesR c acc (body ++ Tok.dictEnd :: rest) =
      .ok (applyEntries acc es, rest) := by
  induction h with
  | @single k V v hV =>
    intro acc rest
    have h1 := hV (Tok.dictEnd :: rest)
    rw [parseValueR] at h1
    obtain ⟨hb, hpv⟩ := mapSub_ok.mp h1
    rw [List.cons_append, List.cons_append, dictEntriesR, dictEntries, hpv]
    simp [Except.map, applyEntries]
  | @cons k V v ts es1 hV hseq ih =>
    intro acc rest
    have h1 := hV (Tok.comma :: (ts ++ Tok.dictEnd :: rest))
    rw [parseValueR] at h1
    obtain ⟨hb, hpv⟩ := mapSub_ok.mp h1
    have h2 := ih (pyDictSet acc k v) rest
    rw [dictEntriesR] at h2
    obtain ⟨hb2, hde⟩ := mapSub_ok.mp h2
    rw [List.cons_append, List.cons_append, List.append_assoc, List.cons_append,
      dictEntriesR, dictEntries, hpv]
    simp [hde, Except.map, applyEntries]

/-- The `parse_dict` loop on a comma-separated entry sequence with a
trailing comma before the closing bracket: the `continue` path re-enters
the loop head, which consumes the bracket, so the result is the same. -/
theorem dictEntries_trail {c : Consts} {body : List Tok} {es : List (String × Value)}
    (h : EntrySeq c body es) :
    ∀ acc rest, dictEntriesR c acc (body ++ Tok.comma :: Tok.dictEnd :: rest) =
      .ok (applyEntries acc es, rest) := by
  induction h with
  | @single k V v hV =>
    intro acc rest
    have h1 := hV (Tok.comma :: Tok.dictEnd :: rest)
    rw [parseValueR] at h1
    obtain ⟨hb, hpv⟩ := mapSub_ok.mp h1
    have h2 := dictEntries_end c (pyDictSet acc k v) rest
    rw [dictEntriesR] at h2
    obtain ⟨hb2, hde⟩ := mapSub_ok.mp h2
    rw [List.cons_append, List.cons_append, dictEntriesR, dictEntries, hpv]
    simp [hde, Except.map, applyEntries]
  | @cons k V v ts es1 hV hseq ih =>
    intro acc rest
    have h1 := hV (Tok.comma :: (ts ++ Tok.comma :: Tok.dictEnd :: rest))
    rw [parseValueR] at h1
    obtain ⟨hb, hpv⟩ := mapSub_ok.mp h1
    have h2 := ih (pyDictSet acc k v) rest
    rw [dictEntriesR] at h2
    obtain ⟨hb2, hde⟩ := mapSub_ok.mp h2
    rw [List.cons_append, List.cons_append, List.append_assoc, List.cons_append,
      dictEntriesR, dictEntries, hpv]
    simp [hde, Except.map, applyEntries]

/-- Lift a `dictEntries` result through the `DICT_START` step of
`parse_dict`. -/
theorem parseDictR_lift_ok {c : Consts} {rest0 : List Tok} {d : List (String × Value)}
    {rest : List Tok} (h : dictEntriesR c [] rest0 = .ok (d, rest)) :
    parseDictR c (Tok.dictStart :: rest0) = .ok (d, rest) := by
  rw [dictEntriesR] at h
  obtain ⟨hb, hde⟩ := mapSub_ok.mp h
  rw [parseDictR, parseDict, hde]
  simp [Except.map]

/-! ## General lemmas about the lexer -/

theorem takeDigits_none {s : List Char} (h : (takeDigits s).1 = []) :
    takeDigits s = ([], s) := by
  cases s with
  | nil => rfl
  | cons c r =>
    by_cases hc : c.isDigit
    · rw [takeDigits, if_pos hc] at h ⊢
      exact absurd h (by simp)
    · rw [takeDigits, if_neg hc]

theorem takeDigits_digits {ds r : List Char} (hds : ∀ x ∈ ds, x.isDigit = true)
    (hr : (takeDigits r).1 = []) : takeDigits (ds ++ r) = (ds, r) := by
  induction ds with
  | nil => simpa using takeDigits_none hr
  | cons d ds2 ih =>
    have hd : d.isDigit = true := hds d (by simp)
    have ih2 := ih (fun x hx => hds x (by simp [hx]))
    simp [takeDigits, hd, ih2]

theorem skipWs_cons {c : Char} (r : List Char) (h : pyIsSpace c = false) :
    skipWs (c :: r) = c :: r := by
  simp [skipWs, h]

/-- Characters agreeing on no `isDigit` value are distinct. -/
theorem isDigit_ne {c d : Char} (h : c.isDigit = true) (hd : d.isDigit = false) : c ≠ d := by
  rintro rfl
  rw [h] at hd
  simp at hd

/-- A digit is not Python whitespace. -/
theorem isDigit_not_space {c : Char} (h : c.isDigit = true) : pyIsSpace c = false := by
  cases hps : pyIsSpace c with
  | false => rfl
  | true =>
    exfalso
    simp only [pyIsSpace, Bool.or_eq_true, decide_eq_true_eq] at hps
    rcases hps with ((((h1 | h1) | h1) | h1) | h1) | h1 <;>
      (subst h1; exact absurd h (by decide))

/-- A list of digits does not contain a non-digit. -/
theorem digits_not_contains {ds : List Char} (hds : ∀ x ∈ ds, x.isDigit = true)
    {d : Char} (hd : d.isDigit = false) : ds.contains d = false := by
  induction ds with
  | nil => rfl
  | cons x ds2 ih =>
    have hx : x.isDigit = true := hds x (by simp)
    have hne : x ≠ d := isDigit_ne hx hd
    simp only [List.contains_cons, Bool.or_eq_false_iff]
    refine ⟨?_, ih (fun y hy => hds y (by simp [hy]))⟩
    simp only [beq_eq_false_iff_ne, ne_eq]
    first
    | exact hne
    | exact fun hdx => hne hdx.symm

/-- The most-significant-first digit fold of Python `int` agrees with
`Nat.ofDigits` on the reversed digit list. -/
theorem digitsVal_go (ds : List Char) : ∀ a : Nat,
    ds.foldl (fun n c => 10 * n + (c.toNat - 48)) a =
      a * 10 ^ ds.length + Nat.ofDigits 10 ((ds.map charDigit).reverse) := by
  induction ds with
  | nil => intro a; simp [Nat.ofDigits]
  | cons d ds2 ih =>
    intro a
    have h1 := ih (10 * a + (d.toNat - 48))
    simp only [List.foldl_cons, h1, List.map_cons, List.reverse_cons, List.length_cons,
      Nat.ofDigits_append, Nat.ofDigits, List.length_reverse, List.length_map, charDigit,
      Nat.cast_id]
    ring

theorem digitsVal_eq (ds : List Char) :
    digitsVal ds = Nat.ofDigits 10 ((ds.map charDigit).reverse) := by
  have h := digitsVal_go ds 0
  simpa [digitsVal] using h

/-- One lexer step on a number literal classified as an integer. -/
theorem nextTok_number_int {s lit r : List Char} {c : Char} {s2 : List Char}
    (hs : s = c :: s2) (hc : c = '-' ∨ c.isDigit = true ∨ c = '.')
    (h : readNumber s = .ok (lit, r))
    (h1 : lit.contains 'e' = false) (h2 : lit.contains 'E' = false)
    (h3 : lit.contains '.' = false) :
    nextTok s = .ok (some (.number (.intV (intOfLit lit)), r)) := by
  subst hs
  have hsp : pyIsSpace c = false := by
    rcases hc with rfl | hc | rfl
    · decide
    · exact isDigit_not_space hc
    · decide
  have hdisp : (c = '-' || c.isDigit || c = '.') = true := by
    rcases hc with rfl | hc2 | rfl
    · simp
    · simp [hc2]
    · simp
  rw [nextTok, skipWs_cons _ hsp]
  simp only [hdisp, if_pos, h, h1, h2, h3]
  simp

/-- One lexer step on a number literal classified as a float. -/
theorem nextTok_number_float {s lit r : List Char} {c : Char} {s2 : List Char}
    (hs : s = c :: s2) (hc : c = '-' ∨ c.isDigit = true ∨ c = '.')
    (h : readNumber s = .ok (lit, r))
    (hf : (lit.contains '.' || lit.contains 'e' || lit.contains 'E') = true) :
    nextTok s = .ok (some (.number (.floatV ⟨lit⟩), r)) := by
  subst hs
  have hsp : pyIsSpace c = false := by
    rcases hc with rfl | hc | rfl
    · decide
    · exact isDigit_not_space hc
    · decide
  have hdisp : (c = '-' || c.isDigit || c = '.') = true := by
    rcases hc with rfl | hc2 | rfl
    · simp
    · simp [hc2]
    · simp
  rw [nextTok, skipWs_cons _ hsp]
  simp only [hdisp, if_pos, h]
  by_cases he : lit.contains 'e' = true
  · rw [he]
    simp
  · rw [Bool.not_eq_true] at he
    by_cases hE : lit.contains 'E' = true
    · rw [he, hE]
      simp
    · rw [Bool.not_eq_true] at hE
      have hdot : lit.contains '.' = true := by
        rcases Bool.or_eq_true_iff.mp hf with hf1 | hf1
        · rcases Bool.or_eq_true_iff.mp hf1 with hf2 | hf2
          · exact hf2
          · rw [hf2] at he
            exact absurd he (by simp)
        · rw [hf1] at hE
          exact absurd hE (by simp)
      rw [he, hE, hdot]
      simp

/-- A single-token input lexes to that token followed by `EOF`. -/
theorem tokenize_single {s : List Char} {tok : Tok}
    (h : nextTok s = .ok (some (tok, []))) (hne : s ≠ []) :
    tokenize ⟨s⟩ = .ok [tok, Tok.eof] := by
  obtain ⟨c, s2, rfl⟩ : ∃ c s2, s = c :: s2 := by
    cases s with
    | nil => exact absurd rfl hne
    | cons c s2 => exact ⟨c, s2, rfl⟩
  show tokenizeAux ((c :: s2).length + 1) (c :: s2) = _
  rw [tokenizeAux, h]
  simp [tokenizeAux, nextTok, skipWs]

/-- A complete integer literal: optional minus sign, then digits. -/
theorem readNumber_int {sgn : Bool} {ds : List Char} (hne : ds ≠ [])
    (hds : ∀ x ∈ ds, x.isDigit = true) :
    readNumber ((if sgn then ['-'] else []) ++ ds) =
      .ok ((if sgn then ['-'] else []) ++ ds, []) := by
  obtain ⟨d, ds2, rfl⟩ : ∃ d ds2, ds = d :: ds2 := by
    cases ds with
    | nil => exact absurd rfl hne
    | cons d ds2 => exact ⟨d, ds2, rfl⟩
  have hd : d.isDigit = true := hds d (by simp)
  have hdm : d ≠ '-' := isDigit_ne hd (by decide)
  have hdd : d ≠ '.' := isDigit_ne hd (by decide)
  have htd : takeDigits (d :: ds2) = (d :: ds2, []) := by
    have h0 := @takeDigits_digits (d :: ds2) [] hds rfl
    simpa using h0
  cases sgn
  · simp [readNumber, hdm, hdd, htd, readExp]
  · simp [readNumber, hdd, htd, readExp]

/-- A literal that begins with `.` and has no digit after the dot fails
with the decimal-point error (`starts_with_dot` with no digits at all). -/
theorem readNumber_dot_nodigits {r : List Char} (h : (takeDigits r).1 = []) :
    readNumber ('.' :: r) =
      .error "Invalid number format: expected digits after decimal point" := by
  have htr := takeDigits_none h
  simp [readNumber, takeDigits, htr]

/-- The same failure with a leading minus sign (`-.`). -/
theorem readNumber_neg_dot_nodigits {r : List Char} (h : (takeDigits r).1 = []) :
    readNumber ('-' :: '.' :: r) =
      .error "Invalid number format: expected digits after decimal point" := by
  have htr := takeDigits_none h
  simp [readNumber, takeDigits, htr]

/-- A literal with digits before a trailing dot succeeds; the dot is
consumed and an exponent may follow. -/
theorem readNumber_intdot {ds r ed r2 : List Char} (hne : ds ≠ [])
    (hds : ∀ x ∈ ds, x.isDigit = true) (hr : (takeDigits r).1 = [])
    (hexp : readExp r = .ok (ed, r2)) :
    readNumber (ds ++ '.' :: r) = .ok (ds ++ '.' :: ed, r2) := by
  obtain ⟨d, ds2, rfl⟩ : ∃ d ds2, ds = d :: ds2 := by
    cases ds with
    | nil => exact absurd rfl hne
    | cons d ds2 => exact ⟨d, ds2, rfl⟩
  have hd : d.isDigit = true := hds d (by simp)
  have hdm : d ≠ '-' := isDigit_ne hd (by decide)
  have hdd : d ≠ '.' := isDigit_ne hd (by decide)
  have htd : takeDigits (d :: (ds2 ++ '.' :: r)) = (d :: ds2, '.' :: r) := by
    have h0 := @takeDigits_digits (d :: ds2) ('.' :: r) hds (by simp [takeDigits])
    simpa using h0
  have htr := takeDigits_none hr
  simp [readNumber, hdm, hdd, htd, htr, hexp]

/-- With no digits consumed and no leading dot after the optional sign,
`read_number` fails asking for at least one digit (with and without the
sign). -/
theorem readNumber_nodigits {s1 : List Char} (h1 : s1.head? ≠ some '-')
    (h2 : s1.head? ≠ some '.') (h3 : (takeDigits s1).1 = []) :
    readNumber s1 = .error "Invalid number format: expected at least one digit"
    ∧ readNumber ('-' :: s1) =
        .error "Invalid number format: expected at least one digit" := by
  have htr := takeDigits_none h3
  cases s1 with
  | nil => constructor <;> simp [readNumber, takeDigits]
  | cons c r =>
    have hcm : c ≠ '-' := by
      intro hc
      exact h1 (by simp [hc])
    have hcd : c ≠ '.' := by
      intro hc
      exact h2 (by simp [hc])
    constructor <;> simp [readNumber, hcm, hcd, htr]

/-! ## Lemmas about `read_string` -/

/-- Escape decoding: each two-character escape prepends its decoded form
to whatever the rest of the string scans to. -/
theorem readStringBody_escape {r out r2 : List Char}
    (h : readStringBody r = .ok (out, r2)) (d : Char) :
    readStringBody ('\\' :: d :: r) =
      .ok ((if d = 'n' then ['\n']
            else if d = 't' then ['\t']
            else if d = '\\' then ['\\']
            else if d = '"' then ['"']
            else ['\\', d]) ++ out, r2) := by
  rw [readStringBody]
  simp [h]

/-- An input with no double quote at all never closes: scanning it is
the "Unclosed string" lexical error. -/
theorem readStringBody_unclosed : ∀ s : List Char, ('"' ∉ s) →
    readStringBody s = .error "Unclosed string" := by
  have main : ∀ (n : Nat) (s : List Char), s.length ≤ n → ('"' ∉ s) →
      readStringBody s = .error "Unclosed string" := by
    intro n
    induction n with
    | zero =>
      intro s hlen
      cases s with
      | nil => intro _; rfl
      | cons c rest => simp at hlen
    | succ n ih =>
      intro s hlen hmem
      cases s with
      | nil => rfl
      | cons c rest =>
        have hcq : c ≠ '"' := by
          intro hc
          exact hmem (by simp [hc])
        by_cases hcb : c = '\\'
        · subst hcb
          cases rest with
          | nil =>
            rw [readStringBody.eq_def]
            simp
          | cons d rest2 =>
            have hrec : readStringBody rest2 = .error "Unclosed string" := by
              refine ih rest2 ?_ ?_
              · simp only [List.length_cons] at hlen
                omega
              · intro hm
                exact hmem (by simp [hm])
            rw [readStringBody]
            simp [hrec]
        · have hrec : readStringBody rest = .error "Unclosed string" := by
            refine ih rest ?_ ?_
            · simp only [List.length_cons] at hlen
              omega
            · intro hm
              exact hmem (by simp [hm])
          rw [readStringBody.eq_def]
          simp [hcq, hcb, hrec]
  intro s
  exact main s.length s le_rfl

/-! ## The claims -/

/-- C1: the specification says lexing the input "12.34.56" fails with a
lexical error and produces no token sequence.  The code instead lexes it
without any error into two float Number tokens, `12.34` and `.56`
(`read_number` stops after the second dot and the dispatch loop starts a
fresh literal there), contradicting the repository's own test
`test_invalid_number_format`, which expects `tokenize` to raise. -/
theorem claim1_malformed_number_lexes :
    tokenize "12.34.56" =
      .ok [Tok.number (.floatV "12.34"), Tok.number (.floatV ".56"), Tok.eof] := by
  rfl

/-- C3 counterexample: on the input "." no digit is consumed in either
the integer or the fractional part and lexing fails, but with the error
"Invalid number format: expected digits after decimal point", which does
not contain the phrase "expected at least one digit" that the claim
requires for every no-digit literal. -/
theorem claim3_counterexample :
    tokenize "." = .error "Invalid number format: expected digits after decimal point"
    ∧ ¬ phraseIn "expected at least one digit"
        "Invalid number format: expected digits after decimal point" := by
  constructor
  · rfl
  · decide

/-- C3 (amended): a trailing `.` with no digit after it is a lexical
error only if the literal began with `.` and contained zero digits
overall (`.` and `-.` fail with the decimal-point error, while digits
followed by a trailing `.` lex successfully); and if no digit was
consumed across both parts, lexing fails — with an error containing
"expected at least one digit" when the literal did not begin with `.`,
and with the error "Invalid number format: expected digits after decimal
point" when it did. -/
theorem claim3_trailing_dot :
    (∀ r : List Char, (takeDigits r).1 = [] →
      readNumber ('.' :: r) =
          .error "Invalid number format: expected digits after decimal point"
        ∧ readNumber ('-' :: '.' :: r) =
          .error "Invalid number format: expected digits after decimal point")
    ∧ (∀ ds r ed r2 : List Char, ds ≠ [] → (∀ x ∈ ds, x.isDigit = true) →
        (takeDigits r).1 = [] → readExp r = .ok (ed, r2) →
        readNumber (ds ++ '.' :: r) = .ok (ds ++ '.' :: ed, r2))
    ∧ (∀ s1 : List Char, s1.head? ≠ some '-' → s1.head? ≠ some '.' →
        (takeDigits s1).1 = [] →
        readNumber s1 = .error "Invalid number format: expected at least one digit"
          ∧ readNumber ('-' :: s1) =
            .error "Invalid number format: expected at least one digit")
    ∧ phraseIn "expected at least one digit"
        "Invalid number format: expected at least one digit" :=
  ⟨fun r h => ⟨readNumber_dot_nodigits h, readNumber_neg_dot_nodigits h⟩,
   fun ds r ed r2 h1 h2 h3 h4 => readNumber_intdot h1 h2 h3 h4,
   fun s1 h1 h2 h3 => readNumber_nodigits h1 h2 h3,
   by decide⟩

/-- C3 witness: the amended statement at the concrete literals ".",
"12." and "-". -/
theorem claim3_trailing_dot_witness :
    readNumber ['.'] = .error "Invalid number format: expected digits after decimal point"
    ∧ readNumber ['1', '2', '.'] = .ok (['1', '2', '.'], [])
    ∧ readNumber ['-'] = .error "Invalid number format: expected at least one digit" := by
  refine ⟨(claim3_trailing_dot.1 [] (by decide)).1, ?_, ?_⟩
  · have h := claim3_trailing_dot.2.1 ['1', '2'] [] [] [] (by decide) (by decide)
      (by decide) (by rfl)
    simpa using h
  · have h := (claim3_trailing_dot.2.2.1 [] (by decide) (by decide) (by decide)).2
    simpa using h

/-- C5: a valid number literal with neither a dot nor an exponent marker
lexes to a Number token holding the exact signed decimal integer of its
digit string (stated against `Nat.ofDigits`); a complete literal that
contains a dot or an exponent marker is classified as a floating-point
Number carrying the literal text instead. -/
theorem claim5_integer_literals :
    (∀ (sgn : Bool) (ds : List Char), ds ≠ [] → (∀ x ∈ ds, x.isDigit = true) →
      tokenize ⟨(if sgn then ['-'] else []) ++ ds⟩ =
        .ok [Tok.number (.intV (denotedInt ((if sgn then ['-'] else []) ++ ds))), Tok.eof]
      ∧ denotedInt ((if sgn then ['-'] else []) ++ ds) =
          (if sgn then -1 else 1) * (Nat.ofDigits 10 ((ds.map charDigit).reverse) : Int))
    ∧ (∀ (lit : List Char) (c : Char) (s2 : List Char), lit = c :: s2 →
        (c = '-' ∨ c.isDigit = true ∨ c = '.') →
        readNumber lit = .ok (lit, []) →
        (lit.contains '.' || lit.contains 'e' || lit.contains 'E') = true →
        tokenize ⟨lit⟩ = .ok [Tok.number (.floatV ⟨lit⟩), Tok.eof]) := by
  constructor
  · intro sgn ds hne hds
    obtain ⟨d, ds2, rfl⟩ : ∃ d ds2, ds = d :: ds2 := by
      cases ds with
      | nil => exact absurd rfl hne
      | cons d ds2 => exact ⟨d, ds2, rfl⟩
    have hd : d.isDigit = true := hds d (by simp)
    have hdm : d ≠ '-' := isDigit_ne hd (by decide)
    have hread := @readNumber_int sgn _ hne hds
    have hce : (d :: ds2).contains 'e' = false := digits_not_contains hds (by decide)
    have hcE : (d :: ds2).contains 'E' = false := digits_not_contains hds (by decide)
    have hcd : (d :: ds2).contains '.' = false := digits_not_contains hds (by decide)
    cases sgn
    · have htok := tokenize_single
        (nextTok_number_int rfl (Or.inr (Or.inl hd)) (by simpa using hread)
          (by simpa using hce) (by simpa using hcE) (by simpa using hcd))
        (by simp)
      constructor
      · have hval : intOfLit (d :: ds2) = denotedInt (d :: ds2) := by
          simp [intOfLit, denotedInt, hdm, digitsVal_eq]
          exact_mod_cast rfl
        rw [hval] at htok
        simpa using htok
      · simp [denotedInt, hdm]
    · have hbool : ∀ x : Char, (d :: ds2).contains x = false → (x == '-') = false →
          (('-' :: d :: ds2).contains x) = false := by
        intro x h1 h2
        rw [List.contains_cons, h2, h1]
        rfl
      have htok := tokenize_single
        (nextTok_number_int rfl (Or.inl rfl) (by simpa using hread)
          (hbool 'e' hce (by decide))
          (hbool 'E' hcE (by decide))
          (hbool '.' hcd (by decide)))
        (by simp)
      constructor
      · have hval : intOfLit ('-' :: d :: ds2) = denotedInt ('-' :: d :: ds2) := by
          simp [intOfLit, denotedInt, digitsVal_eq]
          exact_mod_cast rfl
        rw [hval] at htok
        simpa using htok
      · simp [denotedInt]
  · intro lit c s2 hs hc hread hf
    have hne2 : lit ≠ [] := by subst hs; simp
    exact tokenize_single (nextTok_number_float hs hc hread hf) hne2

/-- C5 witness: "42" and "-10" lex to the exact integers 42 and -10, and
"3.14" is classified as a float. -/
theorem claim5_integer_literals_witness :
    tokenize "-10" = .ok [Tok.number (.intV (-10)), Tok.eof]
    ∧ tokenize "42" = .ok [Tok.number (.intV 42), Tok.eof]
    ∧ tokenize "3.14" = .ok [Tok.number (.floatV "3.14"), Tok.eof] := by
  refine ⟨?_, ?_, ?_⟩
  · have h := (claim5_integer_literals.1 true ['1', '0'] (by decide) (by decide)).1
    have hv : denotedInt ((if true then ['-'] else []) ++ ['1', '0']) = -10 := by decide
    rw [hv] at h
    exact h
  · have h := (claim5_integer_literals.1 false ['4', '2'] (by decide) (by decide)).1
    have hv : denotedInt ((if false then ['-'] else []) ++ ['4', '2']) = 42 := by decide
    rw [hv] at h
    exact h
  · exact claim5_integer_literals.2 ['3', '.', '1', '4'] '3' ['.', '1', '4'] rfl
      (by decide) (by rfl) (by decide)

/-- C6: in the lexer, `=` immediately followed by `>` yields one Arrow
token, `=` not followed by `>` yields an Equals token, and a bare `>`
also yields an Arrow token. -/
theorem claim6_arrow_tokens : ∀ r : List Char,
    nextTok ('=' :: '>' :: r) = .ok (some (Tok.arrow, r))
    ∧ (r.head? ≠ some '>' → nextTok ('=' :: r) = .ok (some (Tok.equals, r)))
    ∧ nextTok ('>' :: r) = .ok (some (Tok.arrow, r)) := by
  intro r
  refine ⟨?_, ?_, ?_⟩
  · rw [nextTok, skipWs_cons _ (by decide)]
    simp
  · cases r with
    | nil =>
      intro _
      rw [nextTok, skipWs_cons _ (by decide)]
      simp
    | cons c2 r2 =>
      intro hh
      have hc2 : c2 ≠ '>' := by
        intro h
        exact hh (by simp [h])
      rw [nextTok, skipWs_cons _ (by decide)]
      simp [hc2]
  · rw [nextTok, skipWs_cons _ (by decide)]
    simp

/-- C6 witness: the three behaviours at a concrete tail. -/
theorem claim6_arrow_tokens_witness :
    nextTok ['=', '>'] = .ok (some (Tok.arrow, []))
    ∧ nextTok ['='] = .ok (some (Tok.equals, []))
    ∧ nextTok ['>'] = .ok (some (Tok.arrow, [])) :=
  ⟨(claim6_arrow_tokens []).1,
   (claim6_arrow_tokens []).2.1 (by decide),
   (claim6_arrow_tokens []).2.2⟩

/-- C7: the words `array` and `let` lex to their keyword tokens exactly
when the next character after the word is not an identifier character
(alphanumeric or underscore) or the input ends there; otherwise the
whole run of identifier characters lexes as a single plain Identifier
token. -/
theorem claim7_keyword_boundary : ∀ rest : List Char,
    ((rest = [] ∨ ∃ b rest2, rest = b :: rest2 ∧ (pyIsAlnum b || b = '_') = false) →
      nextTok ("array".data ++ rest) = .ok (some (Tok.arrayKw, rest))
      ∧ nextTok ("let".data ++ rest) = .ok (some (Tok.letKw, rest)))
    ∧ (∀ b rest2, rest = b :: rest2 → (pyIsAlnum b || b = '_') = true →
      nextTok ("array".data ++ rest) =
        .ok (some (Tok.ident ⟨"array".data ++ (takeIdentCont rest).1⟩,
          (takeIdentCont rest).2))
      ∧ nextTok ("let".data ++ rest) =
        .ok (some (Tok.ident ⟨"let".data ++ (takeIdentCont rest).1⟩,
          (takeIdentCont rest).2))) := by
  intro rest
  constructor
  · rintro (rfl | ⟨b, rest2, rfl, hb⟩)
    · constructor
      · have e1 : ("array".data ++ ([] : List Char)) = 'a' :: 'r' :: 'r' :: 'a' :: 'y' :: [] := rfl
        rw [e1, nextTok, skipWs_cons _ (by decide)]
        simp [isIdentStart]
      · have e1 : ("let".data ++ ([] : List Char)) = 'l' :: 'e' :: 't' :: [] := rfl
        rw [e1, nextTok, skipWs_cons _ (by decide)]
        simp [isIdentStart]
    · constructor
      · have e1 : ("array".data ++ (b :: rest2)) = 'a' :: 'r' :: 'r' :: 'a' :: 'y' :: b :: rest2 := rfl
        rw [e1, nextTok, skipWs_cons _ (by decide)]
        simp [hb, isIdentStart]
      · have e1 : ("let".data ++ (b :: rest2)) = 'l' :: 'e' :: 't' :: b :: rest2 := rfl
        rw [e1, nextTok, skipWs_cons _ (by decide)]
        simp [hb, isIdentStart]
  · rintro b rest2 rfl hb
    constructor
    · have e1 : ("array".data ++ (b :: rest2)) = 'a' :: 'r' :: 'r' :: 'a' :: 'y' :: b :: rest2 := rfl
      rw [e1, nextTok, skipWs_cons _ (by decide)]
      simp [hb, readIdent, takeIdentCont, isIdentStart, isIdentCont]
    · have e1 : ("let".data ++ (b :: rest2)) = 'l' :: 'e' :: 't' :: b :: rest2 := rfl
      rw [e1, nextTok, skipWs_cons _ (by decide)]
      simp [hb, readIdent, takeIdentCont, isIdentStart, isIdentCont]

/-- C7 witness: "arrays" and "let_x" lex as identifiers, while "array"
and "let" followed by a space lex as keywords. -/
theorem claim7_keyword_boundary_witness :
    nextTok ("array".data ++ [' ']) = .ok (some (Tok.arrayKw, [' ']))
    ∧ nextTok ("array".data ++ ['s']) =
        .ok (some (Tok.ident "arrays", []))
    ∧ nextTok ("let".data ++ ['_', 'x']) =
        .ok (some (Tok.ident "let_x", [])) := by
  refine ⟨((claim7_keyword_boundary [' ']).1 (Or.inr ⟨' ', [], rfl, by decide⟩)).1, ?_, ?_⟩
  · have h := ((claim7_keyword_boundary ['s']).2 's' [] rfl (by decide)).1
    simpa [takeIdentCont, isIdentCont] using h
  · have h := ((claim7_keyword_boundary ['_', 'x']).2 '_' ['x'] rfl (by decide)).2
    simpa [takeIdentCont, isIdentCont] using h

/-- C8: in string lexing the escapes `\n`, `\t`, `\\` and `\"` decode to
newline, tab, backslash and quote; a backslash followed by any other
character yields that backslash and the character literally (no error);
and reaching end of input before the closing quote is the lexical error
"Unclosed string". -/
theorem claim8_string_escapes :
    (∀ r out r2 : List Char, readStringBody r = .ok (out, r2) →
      readStringBody ('\\' :: 'n' :: r) = .ok ('\n' :: out, r2)
      ∧ readStringBody ('\\' :: 't' :: r) = .ok ('\t' :: out, r2)
      ∧ readStringBody ('\\' :: '\\' :: r) = .ok ('\\' :: out, r2)
      ∧ readStringBody ('\\' :: '"' :: r) = .ok ('"' :: out, r2)
      ∧ (∀ d : Char, d ≠ 'n' → d ≠ 't' → d ≠ '\\' → d ≠ '"' →
          readStringBody ('\\' :: d :: r) = .ok ('\\' :: d :: out, r2)))
    ∧ (∀ s : List Char, '"' ∉ s → readStringBody s = .error "Unclosed string")
    ∧ tokenize "\"hello\\nworld\\ttab\"" = .ok [Tok.string "hello\nworld\ttab", Tok.eof] := by
  refine ⟨?_, readStringBody_unclosed, by rfl⟩
  intro r out r2 h
  have he := readStringBody_escape h
  refine ⟨?_, ?_, ?_, ?_, ?_⟩
  · simpa using he 'n'
  · simpa using he 't'
  · simpa using he '\\'
  · simpa using he '"'
  · intro d h1 h2 h3 h4
    simpa [h1, h2, h3, h4] using he d

/-- C8 witness: the escape clauses at a concrete scan of the closing
quote, and the pass-through clause at the character `x`. -/
theorem claim8_string_escapes_witness :
    readStringBody ('\\' :: 'n' :: ['"']) = .ok (['\n'], [])
    ∧ readStringBody ('\\' :: 'x' :: ['"']) = .ok (['\\', 'x'], [])
    ∧ readStringBody ['a'] = .error "Unclosed string" := by
  refine ⟨?_, ?_, ?_⟩
  · exact (claim8_string_escapes.1 ['"'] [] [] (by rfl)).1
  · exact (claim8_string_escapes.1 ['"'] [] [] (by rfl)).2.2.2.2 'x'
      (by decide) (by decide) (by decide) (by decide)
  · exact claim8_string_escapes.2.1 ['a'] (by decide)

/-- C2: the top-level loop accepts any number of `let` declarations in
any position, but at most one non-`let` root value; a second root value
is the "Multiple root values" syntax error; and an input of only `let`
declarations (or nothing) parses to the empty Dict. -/
theorem claim2_root_cardinality :
    (∀ (ts : List Tok) (c2 : Consts), LetChain [] ts c2 →
      parseTokens (ts ++ [Tok.eof]) = .ok (.dict []) ∧ parseTokens ts = .ok (.dict []))
    ∧ (∀ (a : List Tok) (ca : Consts) (V : List Tok) (v : Value) (b : List Tok)
        (cb : Consts), LetChain [] a ca → ValSeg ca V v → LetChain ca b cb →
        parseTokens (a ++ V ++ b ++ [Tok.eof]) = .ok v)
    ∧ (∀ (a : List Tok) (ca : Consts) (V : List Tok) (v : Value) (b : List Tok)
        (cb : Consts) (V2 : List Tok) (v2 : Value) (r2 : List Tok),
        LetChain [] a ca → ValSeg ca V v → LetChain ca b cb → ValSeg cb V2 v2 →
        parseTokens (a ++ V ++ b ++ V2 ++ r2) = .error "Multiple root values") := by
  refine ⟨?_, ?_, ?_⟩
  · intro ts c2 h
    constructor
    · rw [parseTokens, parseTop_letChain h none [Tok.eof], parseTop_eof]
      rfl
    · have h2 := parseTop_letChain h none []
      rw [List.append_nil] at h2
      rw [parseTokens, h2, parseTop_nil]
      rfl
  · intro a ca V v b cb ha hV hb
    rw [parseTokens, List.append_assoc, List.append_assoc,
      parseTop_letChain ha none _, parseTop_rootStep hV _,
      parseTop_letChain hb (some v) [Tok.eof], parseTop_eof]
    rfl
  · intro a ca V v b cb V2 v2 r2 ha hV hb hV2
    rw [parseTokens, List.append_assoc, List.append_assoc, List.append_assoc,
      parseTop_letChain ha none _, parseTop_rootStep hV _,
      parseTop_letChain hb (some v) _, parseTop_moreRoot hV2 v r2]

/-- C2 witness: a `let` alone yields the empty Dict; a `let` followed by
a root value yields that value; two root values are an error. -/
theorem claim2_root_cardinality_witness :
    parseTokens [Tok.letKw, Tok.ident "A", Tok.equals, Tok.number (.intV 1), Tok.eof] =
      .ok (.dict [])
    ∧ parseTokens [Tok.letKw, Tok.ident "A", Tok.equals, Tok.number (.intV 1),
        Tok.number (.intV 2), Tok.eof] = .ok (.num (.intV 2))
    ∧ parseTokens [Tok.number (.intV 2), Tok.number (.intV 3), Tok.eof] =
        .error "Multiple root values" := by
  have hchain : LetChain [] [Tok.letKw, Tok.ident "A", Tok.equals, Tok.number (.intV 1)]
      (pyDictSet [] "A" (.num (.intV 1))) :=
    LetChain.step (ValSeg_number [] (.intV 1)) (LetChain.nil _)
  refine ⟨(claim2_root_cardinality.1 _ _ hchain).1, ?_, ?_⟩
  · exact claim2_root_cardinality.2.1 _ _ [Tok.number (.intV 2)] (.num (.intV 2)) [] _
      hchain (ValSeg_number _ (.intV 2)) (LetChain.nil _)
  · exact claim2_root_cardinality.2.2 [] [] [Tok.number (.intV 2)] (.num (.intV 2)) [] []
      [Tok.number (.intV 3)] (.num (.intV 3)) [Tok.eof] (LetChain.nil _)
      (ValSeg_number _ (.intV 2)) (LetChain.nil _) (ValSeg_number _ (.intV 3))

/-- C4: `let MyConst = 42` followed by `#{MyConst}` parses to 42 (a let
binds its value into the constant table immediately, visible to all
subsequent references), and a constant reference to a name unbound at
that point fails with the syntax error "Undefined constant: <name>",
which contains the phrase "Undefined constant". -/
theorem claim4_let_and_constant_refs :
    parseText "let MyConst = 42\n#{MyConst}" = .ok (.num (.intV 42))
    ∧ (∀ (c : Consts) (n : String) (rest : List Tok), lookupC c n = none →
        parseValueR c (Tok.constantRef n :: rest) = .error ("Undefined constant: " ++ n)
        ∧ phraseIn "Undefined constant" ("Undefined constant: " ++ n))
    ∧ (∀ (c : Consts) (n : String) (v : Value) (rest : List Tok), lookupC c n = some v →
        parseValueR c (Tok.constantRef n :: rest) = .ok (v, rest))
    ∧ (∀ (c : Consts) (acc : Option Value) (n : String) (V : List Tok) (v : Value)
        (rest : List Tok), ValSeg c V v →
        parseTop c acc (Tok.letKw :: Tok.ident n :: Tok.equals :: (V ++ rest)) =
          parseTop (pyDictSet c n v) acc rest) := by
  refine ⟨?_, ?_, ?_, ?_⟩
  · have htok : tokenize "let MyConst = 42\n#{MyConst}" =
        .ok [Tok.letKw, Tok.ident "MyConst", Tok.equals, Tok.number (.intV 42),
          Tok.constantRef "MyConst", Tok.eof] := by rfl
    simp only [parseText, htok]
    show parseTop [] none (Tok.letKw :: Tok.ident "MyConst" :: Tok.equals ::
      ([Tok.number (.intV 42)] ++ [Tok.constantRef "MyConst", Tok.eof])) = _
    rw [parseTop_letStep none "MyConst" _ (ValSeg_number [] (.intV 42))]
    show parseTop _ none ([Tok.constantRef "MyConst"] ++ [Tok.eof]) = _
    rw [parseTop_rootStep (ValSeg_cref (by rfl)) [Tok.eof], parseTop_eof]
    rfl
  · intro c n rest h
    refine ⟨parseValueR_cref_none c h rest, ⟨[], ": ".data ++ n.data, ?_⟩⟩
    show [] ++ "Undefined constant".data ++ (": ".data ++ n.data) =
      ("Undefined constant: " ++ n).data
    rw [String.data_append]
    rfl
  · intro c n v rest h
    exact parseValueR_cref_some c h rest
  · intro c acc n V v rest hV
    exact parseTop_letStep acc n rest hV

/-- C4 witness: the undefined-constant clause at the unbound name "X"
and the let-step clause at a concrete binding. -/
theorem claim4_let_and_constant_refs_witness :
    parseValueR [] [Tok.constantRef "X"] = .error "Undefined constant: X"
    ∧ parseValueR [("Y", Value.num (.intV 7))] [Tok.constantRef "Y"] =
        .ok (.num (.intV 7), []) := by
  constructor
  · exact (claim4_let_and_constant_refs.2.1 [] "X" [] rfl).1
  · exact claim4_let_and_constant_refs.2.2.1 [("Y", Value.num (.intV 7))] "Y"
      (.num (.intV 7)) [] rfl

/-- C9: `array()` yields an empty Array; otherwise comma-separated
values are collected in order; after a value, any token other than a
comma or closing parenthesis is the syntax error "Expected comma or
closing parenthesis"; and a trailing comma before the closing
parenthesis is rejected (the loop re-enters `parse_value` on `RPAREN`,
which fails). -/
theorem claim9_array_separators :
    (∀ (c : Consts) (rest : List Tok),
      parseArrayR c (Tok.arrayKw :: Tok.lparen :: Tok.rparen :: rest) = .ok ([], rest))
    ∧ (∀ (c : Consts) (ts : List Tok) (vs : List Value) (rest : List Tok),
        ArrChain c ts vs rest →
        parseArrayR c (Tok.arrayKw :: Tok.lparen :: ts) = .ok (vs, rest))
    ∧ (∀ (c : Consts) (V : List Tok) (v : Value) (t : Tok) (rest : List Tok),
        ValSeg c V v → t ≠ Tok.comma → t ≠ Tok.rparen →
        parseArrayR c (Tok.arrayKw :: Tok.lparen :: (V ++ t :: rest)) =
          .error "Expected comma or closing parenthesis")
    ∧ (∀ (c : Consts) (V : List Tok) (v : Value) (rest : List Tok), ValSeg c V v →
        parseArrayR c (Tok.arrayKw :: Tok.lparen :: (V ++ Tok.comma :: Tok.rparen :: rest)) =
          .error "Unexpected token in value: RPAREN") :=
  ⟨fun c rest => parseArrayR_empty c rest,
   fun c ts vs rest h => parseArrayR_chain h,
   fun c V v t rest hV h1 h2 => parseArrayR_sep_error hV h1 h2 rest,
   fun c V v rest hV => parseArrayR_trailing_comma hV rest⟩

/-- C9 witness: `array()`, `array(1, 2)`, `array(1 =)` (separator
error) and `array(1,)` (trailing comma) at concrete inputs. -/
theorem claim9_array_separators_witness :
    parseArrayR [] [Tok.arrayKw, Tok.lparen, Tok.rparen] = .ok ([], [])
    ∧ parseArrayR [] [Tok.arrayKw, Tok.lparen, Tok.number (.intV 1), Tok.comma,
        Tok.number (.intV 2), Tok.rparen, Tok.eof] =
        .ok ([.num (.intV 1), .num (.intV 2)], [Tok.eof])
    ∧ parseArrayR [] [Tok.arrayKw, Tok.lparen, Tok.number (.intV 1), Tok.equals] =
        .error "Expected comma or closing parenthesis"
    ∧ parseArrayR [] [Tok.arrayKw, Tok.lparen, Tok.number (.intV 1), Tok.comma,
        Tok.rparen] = .error "Unexpected token in value: RPAREN" := by
  refine ⟨claim9_array_separators.1 [] [], ?_, ?_, ?_⟩
  · exact claim9_array_separators.2.1 []
      ([Tok.number (.intV 1)] ++ Tok.comma :: ([Tok.number (.intV 2)] ++ Tok.rparen :: [Tok.eof]))
      [.num (.intV 1), .num (.intV 2)] [Tok.eof]
      (ArrChain.more (ValSeg_number _ (.intV 1)) (ArrChain.last (ValSeg_number _ (.intV 2))))
  · exact claim9_array_separators.2.2.1 [] [Tok.number (.intV 1)] (.num (.intV 1))
      Tok.equals [] (ValSeg_number _ (.intV 1)) (by decide) (by decide)
  · exact claim9_array_separators.2.2.2 [] [Tok.number (.intV 1)] (.num (.intV 1)) []
      (ValSeg_number _ (.intV 1))

/-- C10: a dict literal with at least one entry accepts a trailing comma
immediately before the closing bracket and yields exactly the same Dict
as the literal without it: the entry loop checks for the closing
bracket before requiring another entry. -/
theorem claim10_dict_trailing_comma :
    ∀ (c : Consts) (body : List Tok) (es : List (String × Value)) (rest : List Tok),
      EntrySeq c body es →
      parseDictR c (Tok.dictStart :: (body ++ Tok.comma :: Tok.dictEnd :: rest)) =
        .ok (applyEntries [] es, rest)
      ∧ parseDictR c (Tok.dictStart :: (body ++ Tok.dictEnd :: rest)) =
        .ok (applyEntries [] es, rest) := by
  intro c body es rest h
  constructor
  · exact parseDictR_lift_ok (dictEntries_trail h [] rest)
  · exact parseDictR_lift_ok (dictEntries_noTrail h [] rest)

/-- C10 witness: `[ a => 1, ]` and `[ a => 1 ]` produce the same
one-entry Dict. -/
theorem claim10_dict_trailing_comma_witness :
    parseDictR [] [Tok.dictStart, Tok.ident "a", Tok.arrow, Tok.number (.intV 1),
        Tok.comma, Tok.dictEnd, Tok.eof] = .ok ([("a", Value.num (.intV 1))], [Tok.eof])
    ∧ parseDictR [] [Tok.dictStart, Tok.ident "a", Tok.arrow, Tok.number (.intV 1),
        Tok.dictEnd, Tok.eof] = .ok ([("a", Value.num (.intV 1))], [Tok.eof]) := by
  have h := claim10_dict_trailing_comma []
    (Tok.ident "a" :: Tok.arrow :: [Tok.number (.intV 1)]) [("a", Value.num (.intV 1))]
    [Tok.eof] (EntrySeq.single (ValSeg_number _ (.intV 1)))
  constructor
  · have h1 := h.1
    simpa [applyEntries, pyDictSet] using h1
  · have h2 := h.2
    simpa [applyEntries, pyDictSet] using h2

end ConfigParser
